import Mathlib

/-!
# Verification of the Video-Compressor pipeline (`VideoCompression.py`)

This file gives a shallow embedding of the parts of
AutumnsGrove/Video-Compressor that the frozen claims are about, and proves
(or refutes) each claim against that embedding.

Conventions used throughout:

* Python floats carrying byte counts, gigabyte amounts, durations and
  progress fractions are modelled as `ℚ` (the programme only performs
  field arithmetic and comparisons on them, so the rationals are a faithful
  carrier for every value the claims mention).
* Python dicts keyed by strings are modelled as association lists in
  insertion order (`dictInsert` updates the first matching key in place and
  appends fresh keys at the end, exactly like CPython dict assignment).
* Wall-clock derived fields of the aggregator (`start_time`, `last_update`,
  `throughput_mbps`, `eta_seconds`) are real-time quantities; no claim
  depends on them and they are omitted from the worker record.
* External effects (ffmpeg/ffprobe runs, `psutil` disk queries, hashing)
  are modelled by explicit oracle inputs recording the outcome the outside
  world delivered for the corresponding call.
-/

namespace VideoCompressor

/-! ## Progress aggregator (`ProgressAggregator`, VideoCompression.py 24-166) -/

/-- Worker status strings used by the aggregator
(starting / processing / completed / failed). -/
inductive WStatus where
  | starting
  | processing
  | completed
  | failed
deriving DecidableEq, Repr

/-- One entry of `ProgressAggregator._workers` (the fields the claims are
about; the wall-clock fields are omitted, see the file header). -/
structure Worker where
  taskName : String
  fileSizeBytes : ℚ
  processedBytes : ℚ
  progressPct : ℚ
  fps : ℚ
  status : WStatus
  error : Option String := none
deriving DecidableEq, Repr

/-- The aggregator state: `_workers`, `_total_bytes`, `_processed_bytes`. -/
structure Aggregator where
  workers : List (String × Worker)
  totalBytes : ℚ
  processedBytes : ℚ
deriving DecidableEq, Repr

/-- A freshly constructed `ProgressAggregator()`. -/
def Aggregator.init : Aggregator := ⟨[], 0, 0⟩

/-- `worker_id in self._workers` and `self._workers[worker_id]` (first
match; keys are unique in an actual dict). -/
def lookupWorker (ws : List (String × Worker)) (id : String) : Option Worker :=
  (ws.find? (fun e => decide (e.1 = id))).map (·.2)

/-- CPython dict assignment `self._workers[worker_id] = w`: replace the
existing entry in place, or append a fresh key at the end. -/
def dictInsert (ws : List (String × Worker)) (id : String) (w : Worker) :
    List (String × Worker) :=
  match ws with
  | [] => [(id, w)]
  | e :: rest => if e.1 = id then (id, w) :: rest else e :: dictInsert rest id w

/-- `register_worker` (lines 35-51).  Note that `_total_bytes` is increased
by `file_size_bytes` even when the id was already registered. -/
def registerWorker (a : Aggregator) (id : String) (taskName : String)
    (fileSizeBytes : ℚ) : Aggregator :=
  { a with
    workers := dictInsert a.workers id
      { taskName := taskName
        fileSizeBytes := fileSizeBytes
        processedBytes := 0
        progressPct := 0
        fps := 0
        status := WStatus.starting }
    totalBytes := a.totalBytes + fileSizeBytes }

/-- `update_worker_progress` (lines 53-87).  The stored fraction is
`min(progress_pct, 1.0)` — there is no lower clamp in the source.  When
`processed_bytes` is not supplied it is estimated as
`file_size_bytes * progress_pct`. -/
def updateWorkerProgress (a : Aggregator) (id : String) (progressPct : ℚ)
    (fps : ℚ) (processedBytes : Option ℚ) : Aggregator :=
  match lookupWorker a.workers id with
  | none => a
  | some w =>
    let newPct := min progressPct 1
    let newStatus := if progressPct < 1 then WStatus.processing else WStatus.completed
    let newProcessed :=
      match processedBytes with
      | some pb => pb
      | none => w.fileSizeBytes * progressPct
    { a with
      workers := dictInsert a.workers id
        { w with progressPct := newPct, fps := fps, status := newStatus,
                 processedBytes := newProcessed }
      processedBytes := a.processedBytes + (newProcessed - w.processedBytes) }

/-- `complete_worker` (lines 152-158): terminal transition to completed
with fraction forced to `1.0`; no-op for unregistered ids. -/
def completeWorker (a : Aggregator) (id : String) : Aggregator :=
  match lookupWorker a.workers id with
  | none => a
  | some w =>
    { a with
      workers := dictInsert a.workers id
        { w with status := WStatus.completed, progressPct := 1 } }

/-- `fail_worker` (lines 160-166): terminal transition to failed; no-op
for unregistered ids. -/
def failWorker (a : Aggregator) (id : String) (msg : String) : Aggregator :=
  match lookupWorker a.workers id with
  | none => a
  | some w =>
    { a with
      workers := dictInsert a.workers id
        { w with status := WStatus.failed, error := some msg } }

/-- `overall_progress` of `get_aggregate_progress` (lines 89-139): `0.0`
when `_total_bytes == 0`; otherwise the sum over workers of
`progress_pct * weight` where `weight` is `file_size_bytes / _total_bytes`
when `_total_bytes > 0` and `1.0 / len(_workers)` otherwise. -/
def overallProgress (a : Aggregator) : ℚ :=
  if a.totalBytes = 0 then 0
  else
    (a.workers.map (fun e =>
      e.2.progressPct *
        (if 0 < a.totalBytes then e.2.fileSizeBytes / a.totalBytes
         else 1 / (a.workers.length : ℚ)))).sum

/-- Sum of the `file_size_bytes` fields over the registered workers. -/
def sizesSum (ws : List (String × Worker)) : ℚ :=
  (ws.map (fun e => e.2.fileSizeBytes)).sum

/-- Aggregator states reachable through the public API when every caller
supplies a nonnegative registered size and a nonnegative progress fraction
(the callers in the source pass `os.path.getsize` results and fractions
computed as `min(current_seconds / video_duration, 1.0)`, all
nonnegative). -/
inductive Reachable : Aggregator → Prop where
  | init : Reachable Aggregator.init
  | register {a : Aggregator} {id t : String} {size : ℚ} :
      Reachable a → 0 ≤ size → Reachable (registerWorker a id t size)
  | update {a : Aggregator} {id : String} {p fps : ℚ} {pb : Option ℚ} :
      Reachable a → 0 ≤ p → Reachable (updateWorkerProgress a id p fps pb)
  | complete {a : Aggregator} {id : String} :
      Reachable a → Reachable (completeWorker a id)
  | fail {a : Aggregator} {id msg : String} :
      Reachable a → Reachable (failWorker a id msg)

/-- Well-formedness carried by every reachable state: stored fractions lie
in `[0, 1]`, stored sizes are nonnegative, and `_total_bytes` dominates the
sum of the registered sizes (re-registration only ever adds to it). -/
structure AggWF (a : Aggregator) : Prop where
  worker_bounds : ∀ e ∈ a.workers,
    0 ≤ e.2.progressPct ∧ e.2.progressPct ≤ 1 ∧ 0 ≤ e.2.fileSizeBytes
  sizes_le_total : sizesSum a.workers ≤ a.totalBytes

lemma sizesSum_nil : sizesSum [] = 0 := rfl

lemma sizesSum_cons (e : String × Worker) (ws : List (String × Worker)) :
    sizesSum (e :: ws) = e.2.fileSizeBytes + sizesSum ws := by
  simp [sizesSum]

lemma sizesSum_nonneg {ws : List (String × Worker)}
    (h : ∀ e ∈ ws, 0 ≤ e.2.fileSizeBytes) : 0 ≤ sizesSum ws := by
  induction ws with
  | nil => simp [sizesSum_nil]
  | cons e rest ih =>
    rw [sizesSum_cons]
    have h1 := h e (by simp)
    have h2 := ih (fun x hx => h x (by simp [hx]))
    linarith

lemma mem_dictInsert {ws : List (String × Worker)} {id : String} {w : Worker}
    {e : String × Worker} (he : e ∈ dictInsert ws id w) :
    e = (id, w) ∨ e ∈ ws := by
  induction ws with
  | nil => simpa [dictInsert] using he
  | cons f rest ih =>
    rw [dictInsert] at he
    by_cases hf : f.1 = id
    · simp only [if_pos hf, List.mem_cons] at he
      rcases he with h | h
      · exact Or.inl h
      · exact Or.inr (by simp [h])
    · simp only [if_neg hf, List.mem_cons] at he
      rcases he with h | h
      · exact Or.inr (by simp [h])
      · rcases ih h with h1 | h1
        · exact Or.inl h1
        · exact Or.inr (by simp [h1])

lemma sizesSum_dictInsert_le (ws : List (String × Worker)) (id : String)
    (w : Worker) (hws : ∀ e ∈ ws, 0 ≤ e.2.fileSizeBytes) :
    sizesSum (dictInsert ws id w) ≤ sizesSum ws + w.fileSizeBytes := by
  induction ws with
  | nil => simp [dictInsert, sizesSum_cons, sizesSum_nil]
  | cons f rest ih =>
    rw [dictInsert]
    by_cases hf : f.1 = id
    · rw [if_pos hf, sizesSum_cons, sizesSum_cons]
      have hfe := hws f (by simp)
      have hwf : ((id, w) : String × Worker).2.fileSizeBytes = w.fileSizeBytes := rfl
      rw [hwf]
      linarith
    · rw [if_neg hf, sizesSum_cons, sizesSum_cons]
      have := ih (fun x hx => hws x (by simp [hx]))
      linarith

lemma sizesSum_dictInsert_same_size {ws : List (String × Worker)} {id : String}
    {w w' : Worker} (hl : lookupWorker ws id = some w)
    (hs : w'.fileSizeBytes = w.fileSizeBytes) :
    sizesSum (dictInsert ws id w') = sizesSum ws := by
  induction ws with
  | nil => simp [lookupWorker] at hl
  | cons f rest ih =>
    rw [dictInsert]
    by_cases hf : f.1 = id
    · rw [if_pos hf, sizesSum_cons, sizesSum_cons]
      have hfw : f.2 = w := by
        simp [lookupWorker, List.find?, hf] at hl
        exact hl
      have hwf : ((id, w') : String × Worker).2.fileSizeBytes = w'.fileSizeBytes := rfl
      rw [hwf, hs, hfw]
    · rw [if_neg hf, sizesSum_cons, sizesSum_cons]
      have hl' : lookupWorker rest id = some w := by
        simpa [lookupWorker, List.find?, hf] using hl
      rw [ih hl']

lemma lookupWorker_mem {ws : List (String × Worker)} {id : String} {w : Worker}
    (h : lookupWorker ws id = some w) : (id, w) ∈ ws := by
  induction ws with
  | nil => simp [lookupWorker] at h
  | cons f rest ih =>
    by_cases hf : f.1 = id
    · have hfw : f.2 = w := by
        simp [lookupWorker, List.find?, hf] at h
        exact h
      have hfe : f = (id, w) := by
        cases f with
        | mk k v => simp_all
      rw [← hfe]
      exact List.mem_cons_self _ _
    · have h' : lookupWorker rest id = some w := by
        simpa [lookupWorker, List.find?, hf] using h
      exact List.mem_cons_of_mem _ (ih h')

/-- Every reachable aggregator state is well formed. -/
theorem reachable_wf {a : Aggregator} (h : Reachable a) : AggWF a := by
  induction h with
  | init =>
    exact ⟨by simp [Aggregator.init], by simp [Aggregator.init, sizesSum_nil]⟩
  | register hr hsize ih =>
    rename_i a id t size
    constructor
    · intro e he
      rcases mem_dictInsert he with h1 | h1
      · subst h1; exact ⟨le_refl 0, by norm_num, hsize⟩
      · exact ih.worker_bounds e h1
    · have h1 := sizesSum_dictInsert_le a.workers id
        { taskName := t, fileSizeBytes := size, processedBytes := 0,
          progressPct := 0, fps := 0, status := WStatus.starting }
        (fun e he => (ih.worker_bounds e he).2.2)
      have h2 := ih.sizes_le_total
      simp only [registerWorker]
      simp only [registerWorker] at h1
      linarith
  | update hr hp ih =>
    rename_i a id p fps pb
    rw [updateWorkerProgress]
    cases hl : lookupWorker a.workers id with
    | none => exact ih
    | some w =>
      have hw := ih.worker_bounds (id, w) (lookupWorker_mem hl)
      constructor
      · intro e he
        simp only at he
        rcases mem_dictInsert he with h1 | h1
        · subst h1
          refine ⟨le_min hp (by norm_num), min_le_right _ _, hw.2.2⟩
        · exact ih.worker_bounds e h1
      · simp only
        rw [sizesSum_dictInsert_same_size hl]
        · exact ih.sizes_le_total
        · rfl
  | complete hr ih =>
    rename_i a id
    rw [completeWorker]
    cases hl : lookupWorker a.workers id with
    | none => exact ih
    | some w =>
      have hw := ih.worker_bounds (id, w) (lookupWorker_mem hl)
      constructor
      · intro e he
        simp only at he
        rcases mem_dictInsert he with h1 | h1
        · subst h1; exact ⟨by norm_num, le_refl 1, hw.2.2⟩
        · exact ih.worker_bounds e h1
      · simp only
        rw [sizesSum_dictInsert_same_size hl]
        · exact ih.sizes_le_total
        · rfl
  | fail hr ih =>
    rename_i a id msg
    rw [failWorker]
    cases hl : lookupWorker a.workers id with
    | none => exact ih
    | some w =>
      have hw := ih.worker_bounds (id, w) (lookupWorker_mem hl)
      constructor
      · intro e he
        simp only at he
        rcases mem_dictInsert he with h1 | h1
        · subst h1; exact ⟨hw.1, hw.2.1, hw.2.2⟩
        · exact ih.worker_bounds e h1
      · simp only
        rw [sizesSum_dictInsert_same_size hl]
        · exact ih.sizes_le_total
        · rfl

lemma sum_sizes_div (ws : List (String × Worker)) (T : ℚ) :
    (ws.map (fun e => e.2.fileSizeBytes / T)).sum = sizesSum ws / T := by
  induction ws with
  | nil => simp [sizesSum_nil]
  | cons e rest ih => simp [sizesSum_cons, add_div, ih]

lemma lookupWorker_dictInsert (ws : List (String × Worker)) (id : String)
    (w : Worker) : lookupWorker (dictInsert ws id w) id = some w := by
  induction ws with
  | nil => simp [dictInsert, lookupWorker, List.find?]
  | cons f rest ih =>
    rw [dictInsert]
    by_cases hf : f.1 = id
    · rw [if_pos hf]
      simp [lookupWorker, List.find?]
    · rw [if_neg hf]
      simpa [lookupWorker, List.find?, hf] using ih

/-- The weighted overall progress of any well-formed aggregator state lies
in `[0, 1]`. -/
theorem overallProgress_bounds {a : Aggregator} (h : AggWF a) :
    0 ≤ overallProgress a ∧ overallProgress a ≤ 1 := by
  rw [overallProgress]
  by_cases hT : a.totalBytes = 0
  · simp [hT]
  · rw [if_neg hT]
    have hT0 : 0 ≤ a.totalBytes :=
      le_trans (sizesSum_nonneg (fun e he => (h.worker_bounds e he).2.2))
        h.sizes_le_total
    have hTpos : 0 < a.totalBytes := lt_of_le_of_ne hT0 (Ne.symm hT)
    have hmap :
        (a.workers.map (fun e =>
          e.2.progressPct *
            (if 0 < a.totalBytes then e.2.fileSizeBytes / a.totalBytes
             else 1 / (a.workers.length : ℚ)))) =
        a.workers.map (fun e =>
          e.2.progressPct * (e.2.fileSizeBytes / a.totalBytes)) := by
      simp only [if_pos hTpos]
    rw [hmap]
    constructor
    · apply List.sum_nonneg
      intro x hx
      rcases List.mem_map.mp hx with ⟨e, he, rfl⟩
      have hb := h.worker_bounds e he
      exact mul_nonneg hb.1 (div_nonneg hb.2.2 hT0)
    · calc (a.workers.map (fun e =>
            e.2.progressPct * (e.2.fileSizeBytes / a.totalBytes))).sum
          ≤ (a.workers.map (fun e => e.2.fileSizeBytes / a.totalBytes)).sum := by
            apply List.sum_le_sum
            intro e he
            have hb := h.worker_bounds e he
            exact mul_le_of_le_one_left (div_nonneg hb.2.2 hT0) hb.2.1
        _ = sizesSum a.workers / a.totalBytes := sum_sizes_div a.workers a.totalBytes
        _ ≤ 1 := (div_le_one hTpos).mpr h.sizes_le_total

/-- Claim C5 counterexample: `update_worker_progress` does NOT clamp the
supplied fraction into `[0, 1]` — the source stores `min(progress_pct, 1.0)`
with no lower clamp — so after registering one worker of weight 1 and
updating it with fraction -1/2, the stored fraction is -1/2 and the
snapshot overall progress is -1/2, outside `[0, 1]`. -/
theorem claim_C5_counterexample :
    (lookupWorker (updateWorkerProgress
        (registerWorker Aggregator.init "w" "seg" 1) "w" (-(1/2)) 0 none).workers
        "w").map Worker.progressPct = some (-(1/2)) ∧
    overallProgress (updateWorkerProgress
        (registerWorker Aggregator.init "w" "seg" 1) "w" (-(1/2)) 0 none)
      = -(1/2) := by
  constructor <;>
    norm_num [updateWorkerProgress, registerWorker, lookupWorker, dictInsert,
      Aggregator.init, overallProgress, List.find?, min_def]

/-- Claim C5 (amended): `update_worker_progress` clamps the supplied
fraction only from above, storing `min(fraction, 1.0)` (with status
processing when fraction < 1 and completed otherwise); and for every
aggregator state reachable through calls supplying nonnegative fractions
and sizes, the snapshot overall progress lies in `[0, 1]`. -/
theorem claim_C5_overall_progress (a : Aggregator) (h : Reachable a) :
    (0 ≤ overallProgress a ∧ overallProgress a ≤ 1) ∧
    (∀ id p fps pb w, lookupWorker a.workers id = some w →
      lookupWorker (updateWorkerProgress a id p fps pb).workers id =
        some { w with
               progressPct := min p 1
               fps := fps
               status := if p < 1 then WStatus.processing else WStatus.completed
               processedBytes :=
                 match pb with
                 | some b => b
                 | none => w.fileSizeBytes * p }) := by
  constructor
  · exact overallProgress_bounds (reachable_wf h)
  · intro id p fps pb w hw
    rw [updateWorkerProgress, hw]
    exact lookupWorker_dictInsert _ _ _

/-- Claim C5 witness: the amended theorem applied to the concrete reachable
state obtained by registering one 100-byte worker and updating it to
fraction 1/2. -/
theorem claim_C5_witness :
    0 ≤ overallProgress (updateWorkerProgress
        (registerWorker Aggregator.init "w" "seg" 100) "w" (1/2) 24 none) ∧
    overallProgress (updateWorkerProgress
        (registerWorker Aggregator.init "w" "seg" 100) "w" (1/2) 24 none) ≤ 1 :=
  (claim_C5_overall_progress _
    (Reachable.update (Reachable.register Reachable.init (by norm_num))
      (by norm_num))).1

/-- Claim C9: calling `update_worker_progress`, `complete_worker` or
`fail_worker` with a worker id that was never registered is a no-op — the
aggregator state (worker map, total bytes, processed bytes) is returned
entirely unchanged and nothing is raised. -/
theorem claim_C9_unregistered_noop (a : Aggregator) (id : String)
    (p fps : ℚ) (pb : Option ℚ) (msg : String)
    (h : lookupWorker a.workers id = none) :
    updateWorkerProgress a id p fps pb = a ∧
    completeWorker a id = a ∧
    failWorker a id msg = a := by
  refine ⟨?_, ?_, ?_⟩ <;>
    simp [updateWorkerProgress, completeWorker, failWorker, h]

/-- Claim C9 witness: the no-op theorem applied to the empty aggregator and
the unregistered id "x". -/
theorem claim_C9_witness :
    updateWorkerProgress Aggregator.init "x" 1 0 none = Aggregator.init ∧
    completeWorker Aggregator.init "x" = Aggregator.init ∧
    failWorker Aggregator.init "x" "boom" = Aggregator.init :=
  claim_C9_unregistered_noop Aggregator.init "x" 1 0 none "boom" rfl

/-! ## Segmentation routing (`should_segment_file`, lines 1350-1393) -/

/-- `should_segment_file`: the file size in GB is compared against
`segmentation_threshold_gb` and, when ffprobe yields video info, the
duration in seconds against `duration_threshold_minutes * 60`; segmentation
is chosen iff BOTH exceed (line 1383).  When the probe fails the source
logs a warning and falls back to the size-only check (line 1370). -/
def shouldSegmentFile (segmentationThresholdGb durationThresholdMinutes : ℚ)
    (fileSizeGb : ℚ) (probedDurationSeconds : Option ℚ) : Bool :=
  let sizeExceeds := decide (segmentationThresholdGb < fileSizeGb)
  match probedDurationSeconds with
  | none => sizeExceeds
  | some durationSeconds =>
    let durationExceeds :=
      decide (durationThresholdMinutes * 60 < durationSeconds)
    sizeExceeds && durationExceeds

/-- Claim C6: for every file whose media probe succeeds,
`should_segment_file` routes it to the segmentation workflow iff BOTH its
size in GB exceeds `segmentation_threshold_gb` AND its duration exceeds
`duration_threshold_minutes` converted to seconds; a file exceeding only
one threshold is not segmented. -/
theorem claim_C6_segment_iff_both (t m S d : ℚ) :
    shouldSegmentFile t m S (some d) = true ↔ (t < S ∧ m * 60 < d) := by
  simp [shouldSegmentFile]

/-! ## Disk-space check (`check_disk_space`, lines 335-387) -/

/-- The configuration fields the disk-space check reads. -/
structure SpaceConfig where
  useSameFilesystem : Bool
  tempDir : String
  minFreeSpaceGb : ℚ

/-- Directory whose filesystem the temp-space requirement is checked
against (lines 341-349): next to the input when `use_same_filesystem` is
set, otherwise the configured `temp_dir`. -/
def actualTempDir (cfg : SpaceConfig) (fileParentDir : String) : String :=
  if cfg.useSameFilesystem then fileParentDir ++ "/.video_compression_temp"
  else cfg.tempDir

/-- `check_disk_space` verdict (lines 335-387), given the `psutil`
free-space observations `freeGb` (in GB, per directory), the file size in
GB, and the default `safety_multiplier = 2.5`.  The function also creates
the temp directory before measuring (line 352); that side effect is
modelled in `processFile` below. -/
def checkDiskSpace (cfg : SpaceConfig) (fileParentDir : String)
    (fileSizeGb : ℚ) (freeGb : String → ℚ) : Bool :=
  let tempAvailableGb := freeGb (actualTempDir cfg fileParentDir)
  let fileParentAvailableGb := freeGb fileParentDir
  let requiredGb := fileSizeGb * (5 / 2)
  if tempAvailableGb < requiredGb + cfg.minFreeSpaceGb then false
  else if fileParentAvailableGb < fileSizeGb + cfg.minFreeSpaceGb then false
  else true

/-- Claim C8: for a file of size S GB the disk-space check succeeds iff the
temp filesystem (next to the input under `use_same_filesystem`, otherwise
`temp_dir`) has at least `2.5 S + min_free_space_gb` GB free AND the
source-parent filesystem has at least `S + min_free_space_gb` GB free. -/
theorem claim_C8_space_check (cfg : SpaceConfig) (fileParentDir : String)
    (S : ℚ) (freeGb : String → ℚ) :
    checkDiskSpace cfg fileParentDir S freeGb = true ↔
      (S * (5 / 2) + cfg.minFreeSpaceGb ≤ freeGb (actualTempDir cfg fileParentDir) ∧
       S + cfg.minFreeSpaceGb ≤ freeGb fileParentDir) := by
  rw [checkDiskSpace]
  split_ifs with h1 h2
  · simp only [Bool.false_eq_true, false_iff]
    intro h
    exact absurd h.1 (not_le.mpr h1)
  · simp only [Bool.false_eq_true, false_iff]
    intro h
    exact absurd h.2 (not_le.mpr h2)
  · simp only [true_iff]
    exact ⟨not_lt.mp h1, not_lt.mp h2⟩

/-! ## Integrity verification (`verify_file_integrity`, lines 480-648) -/

/-- The observations of a media probe that the verification reads: stream
counts and the duration extracted by `get_video_duration`. -/
structure VideoInfo where
  nVideoStreams : ℕ
  nAudioStreams : ℕ
  duration : ℚ
deriving DecidableEq, Repr

/-- Oracle for one `verify_file_integrity` run: what the filesystem and the
three ffmpeg decode probes would report for the file being verified. -/
structure ProbeFile where
  present : Bool
  sizeBytes : ℕ
  info : Option VideoInfo
  decodeStart : Bool
  decodeMiddle : Bool
  decodeEnd : Bool
deriving DecidableEq, Repr

/-- The three playability sections probed in step 4. -/
inductive VSection where
  | beginning
  | middle
  | ending
deriving DecidableEq, Repr

/-- Outcome of `verify_file_integrity`: the verdict, which playability
sections were attempted, and which produced warnings. -/
structure VerifyResult where
  ok : Bool
  attempted : List VSection
  warnings : List VSection
deriving DecidableEq, Repr

/-- `verify_file_integrity` (lines 480-648): fail on a missing file, a file
under 1024 bytes, an unreadable probe, or no video stream; decode the first
5 seconds (failure is fatal, line 595); decode mid-duration only when
duration > 20 s and the final section only when duration > 10 s, each of
which only logs a warning on failure (lines 601-641); otherwise succeed. -/
def verifyFileIntegrity (f : ProbeFile) : VerifyResult :=
  if f.present = false then ⟨false, [], []⟩
  else if f.sizeBytes < 1024 then ⟨false, [], []⟩
  else
    match f.info with
    | none => ⟨false, [], []⟩
    | some vi =>
      if vi.nVideoStreams = 0 then ⟨false, [], []⟩
      else if f.decodeStart = false then ⟨false, [VSection.beginning], []⟩
      else
        let midAttempted := decide (20 < vi.duration)
        let endAttempted := decide (10 < vi.duration)
        { ok := true
          attempted := VSection.beginning ::
            ((if midAttempted then [VSection.middle] else []) ++
             (if endAttempted then [VSection.ending] else []))
          warnings :=
            (if midAttempted && !f.decodeMiddle then [VSection.middle] else []) ++
            (if endAttempted && !f.decodeEnd then [VSection.ending] else []) }

/-- Claim C7: the verification fails exactly when the file is missing,
smaller than 1024 bytes, unreadable by the prober, lacking a video stream,
or failing the first-5-seconds decode; the mid-duration decode is attempted
only when duration > 20 s, the final-section decode only when
duration > 10 s, and their failures surface as warnings without ever
flipping the verdict. -/
theorem claim_C7_verify_failure_modes (f : ProbeFile) :
    ((verifyFileIntegrity f).ok = true ↔
      (f.present = true ∧ 1024 ≤ f.sizeBytes ∧
        (∃ vi, f.info = some vi ∧ 0 < vi.nVideoStreams) ∧
        f.decodeStart = true)) ∧
    (∀ m e, (verifyFileIntegrity
        { f with decodeMiddle := m, decodeEnd := e }).ok
        = (verifyFileIntegrity f).ok) ∧
    (∀ vi, f.info = some vi →
      ((VSection.middle ∈ (verifyFileIntegrity f).attempted ↔
          ((verifyFileIntegrity f).ok = true ∧ 20 < vi.duration)) ∧
       (VSection.ending ∈ (verifyFileIntegrity f).attempted ↔
          ((verifyFileIntegrity f).ok = true ∧ 10 < vi.duration)) ∧
       (VSection.middle ∈ (verifyFileIntegrity f).warnings ↔
          (VSection.middle ∈ (verifyFileIntegrity f).attempted ∧
            f.decodeMiddle = false)) ∧
       (VSection.ending ∈ (verifyFileIntegrity f).warnings ↔
          (VSection.ending ∈ (verifyFileIntegrity f).attempted ∧
            f.decodeEnd = false)))) := by
  obtain ⟨present, size, info, ds, dm, de⟩ := f
  refine ⟨?_, ?_, ?_⟩
  · cases present <;> cases info <;> cases ds <;>
      by_cases h1024 : size < 1024 <;>
      simp [verifyFileIntegrity, h1024] <;>
      try omega
    all_goals
      (rename_i vi
       by_cases hnv : vi.nVideoStreams = 0 <;> (simp [hnv]; try omega))
  · intro m e
    cases present <;> cases info <;> cases ds <;>
      by_cases h1024 : size < 1024 <;>
      (simp [verifyFileIntegrity, h1024]; try (split_ifs <;> rfl))
  · rintro vi rfl
    cases present <;> cases ds <;> cases dm <;> cases de <;>
      by_cases h1024 : size < 1024 <;>
      by_cases hnv : vi.nVideoStreams = 0 <;>
      by_cases h20 : 20 < vi.duration <;>
      by_cases h10 : 10 < vi.duration <;>
      simp [verifyFileIntegrity, h1024, hnv, h20, h10]

/-- Claim C7 witness: the failure-mode theorem applied to a concrete
well-formed probe of a 41-second video whose middle decode fails. -/
theorem claim_C7_witness :
    (VSection.middle ∈ (verifyFileIntegrity
      { present := true, sizeBytes := 4096,
        info := some { nVideoStreams := 1, nAudioStreams := 1, duration := 41 },
        decodeStart := true, decodeMiddle := false, decodeEnd := true }).attempted ↔
      ((verifyFileIntegrity
      { present := true, sizeBytes := 4096,
        info := some { nVideoStreams := 1, nAudioStreams := 1, duration := 41 },
        decodeStart := true, decodeMiddle := false, decodeEnd := true }).ok = true ∧
        (20 : ℚ) < 41)) :=
  ((claim_C7_verify_failure_modes
    { present := true, sizeBytes := 4096,
      info := some { nVideoStreams := 1, nAudioStreams := 1, duration := 41 },
      decodeStart := true, decodeMiddle := false, decodeEnd := true }).2.2
    { nVideoStreams := 1, nAudioStreams := 1, duration := 41 } rfl).1

/-! ## Per-file protocol (`process_file`, lines 1907-2077)

The filesystem is modelled as an association list of files (path ↦ size in
bytes, a nonzero size standing for the file content) plus the list of
existing directories.  A path is a directory string plus the Python
`Path.stem` / `Path.suffix` split that the source uses to build
`<stem>_compressed<suffix>` names. -/

/-- A filesystem path as the source manipulates it: parent directory,
stem, and suffix. -/
structure VPath where
  dir : String
  stem : String
  ext : String
deriving DecidableEq, Repr

/-- Modelled filesystem: files with their byte sizes, and directories. -/
structure FS where
  files : List (VPath × ℕ)
  dirs : List String
deriving DecidableEq, Repr

/-- Read a file (`Path.exists` / `stat` are reads of this map). -/
def FS.read (fs : FS) (p : VPath) : Option ℕ :=
  (fs.files.find? (fun e => decide (e.1 = p))).map (·.2)

/-- Create or overwrite a file. -/
def FS.write (fs : FS) (p : VPath) (v : ℕ) : FS :=
  { fs with files := (p, v) :: fs.files.filter (fun e => !decide (e.1 = p)) }

/-- `Path.unlink`. -/
def FS.erase (fs : FS) (p : VPath) : FS :=
  { fs with files := fs.files.filter (fun e => !decide (e.1 = p)) }

/-- `Path.mkdir(exist_ok=True)`. -/
def FS.mkdir (fs : FS) (d : String) : FS :=
  { fs with dirs := if d ∈ fs.dirs then fs.dirs else d :: fs.dirs }

/-- True when no file lives in directory `d` (`not any(dir.iterdir())`). -/
def FS.dirEmpty (fs : FS) (d : String) : Bool :=
  !fs.files.any (fun e => decide (e.1.dir = d))

/-- `Path(d).name == ".video_compression_temp"` for our flat directory
strings: the final path component is `.video_compression_temp`. -/
def hasTempDirName (d : String) : Bool :=
  List.isSuffixOf "/.video_compression_temp".data d.data ||
    decide (d = ".video_compression_temp")

/-- The configuration fields `process_file` and its callees read.
`deleteOriginalAfterCompression` is part of the configuration (the Gradio
front end writes it, GradioVideoCompression.py lines 156 and 507-512) but
`process_file` never reads it. -/
structure PConfig where
  useSameFilesystem : Bool
  tempDir : String
  createBackupHash : Bool
  verifyIntegrity : Bool
  deleteOriginalAfterCompression : Bool
deriving DecidableEq, Repr

/-- Temp directory used by `process_file` (lines 1936-1943), identical to
the one `check_disk_space` checks (lines 341-349). -/
def tempDirOf (cfg : PConfig) (src : VPath) : String :=
  if cfg.useSameFilesystem then src.dir ++ "/.video_compression_temp"
  else cfg.tempDir

/-- `output_name = f"{file_path.stem}_compressed{file_path.suffix}"`
(line 1948). -/
def tempOutput (cfg : PConfig) (src : VPath) : VPath :=
  ⟨tempDirOf cfg src, src.stem ++ "_compressed", src.ext⟩

/-- `final_output = file_path.parent / output_name` (line 2004). -/
def finalOutput (src : VPath) : VPath :=
  ⟨src.dir, src.stem ++ "_compressed", src.ext⟩

/-- `cleanup_temp_files(temp_output)` (lines 2079-2103): unlink the temp
file, then remove its parent directory when it is a
`.video_compression_temp` directory left empty. -/
def cleanupTempFiles (fs : FS) (p : VPath) : FS :=
  let fs1 := fs.erase p
  if hasTempDirName p.dir && fs1.dirEmpty p.dir then
    { fs1 with dirs := fs1.dirs.filter (fun d => !decide (d = p.dir)) }
  else fs1

/-- Outcomes delivered by the outside world (ffmpeg, hashing, `psutil`,
`shutil.move`, `unlink`) for one `process_file` run.  `compressOutput` is
the byte size `compress_video` leaves at the temp output on success
(`0` models an empty output file, caught at line 2018). -/
structure PEnv where
  spaceOk : Bool
  hashOk : Bool
  compressOk : Bool
  compressOutput : ℕ
  verifyTempOk : Bool
  moveOk : Bool
  verifyFinalOk : Bool
  unlinkOk : Bool
deriving DecidableEq, Repr

/-- Destructive / ordering-relevant events of one `process_file` run, in
program order. -/
inductive PEvent where
  | checkedSpace
  | madeTempDir
  | dryRunReturn
  | hashedSource
  | wroteTempOutput
  | verifiedTemp
  | movedToFinal
  | verifiedFinal
  | deletedSource
  | cleanedTempDir
deriving DecidableEq, Repr

/-- The result of a `process_file` run: the returned success flag, the
filesystem afterwards, and the event trace. -/
structure PFResult where
  ok : Bool
  fs : FS
  trace : List PEvent
deriving DecidableEq, Repr

/-- `process_file` (lines 1907-2077).  Steps, in source order: existence
check (1924); `check_disk_space` — whose own `mkdir` at line 352 runs
before its verdict (1930); temp-dir `mkdir` (1945); dry-run early return
(1951-1955); source hash when `create_backup_hash` (1957-1961);
`compress_video` into the temp output, cleaning the temp file on failure
or exception (1972-1981); temp verification when `verify_integrity`, with
cleanup on failure (1983-1989); empty-temp-file guard (2016-2022);
`shutil.move` to the final sibling path, cleanup on failure (2025-2031);
final verification, leaving everything in place on failure (2033-2039);
source `unlink` (2041-2048); temp-directory sweep (2050-2070).
`compress_video` (line 850, and its segmentation branch at line 1621)
writes only to the handed output path inside the temp directory — its
segment intermediates carry `_segment_` names in a separate
`.video_segments_temp` area and never alias the source. -/
def processFile (cfg : PConfig) (env : PEnv) (dryRun : Bool) (src : VPath)
    (fs0 : FS) : PFResult :=
  if (fs0.read src).isNone then ⟨false, fs0, []⟩
  else
    let td := tempDirOf cfg src
    let fs1 := fs0.mkdir td
    if env.spaceOk = false then ⟨false, fs1, [PEvent.checkedSpace]⟩
    else
      let fs2 := fs1.mkdir td
      if dryRun then
        ⟨true, fs2, [PEvent.checkedSpace, PEvent.madeTempDir, PEvent.dryRunReturn]⟩
      else
        let t0 : List PEvent := [PEvent.checkedSpace, PEvent.madeTempDir]
        if cfg.createBackupHash && !env.hashOk then ⟨false, fs2, t0⟩
        else
          let t1 := t0 ++ [PEvent.hashedSource]
          let tmp := tempOutput cfg src
          if env.compressOk = false then ⟨false, cleanupTempFiles fs2 tmp, t1⟩
          else
            let fs3 := fs2.write tmp env.compressOutput
            let t2 := t1 ++ [PEvent.wroteTempOutput]
            if cfg.verifyIntegrity && !env.verifyTempOk then
              ⟨false, cleanupTempFiles fs3 tmp, t2⟩
            else
              let t3 := t2 ++ [PEvent.verifiedTemp]
              if env.compressOutput = 0 then ⟨false, cleanupTempFiles fs3 tmp, t3⟩
              else if env.moveOk = false then ⟨false, cleanupTempFiles fs3 tmp, t3⟩
              else
                let fs4 := (fs3.erase tmp).write (finalOutput src) env.compressOutput
                let t4 := t3 ++ [PEvent.movedToFinal]
                if env.verifyFinalOk = false then ⟨false, fs4, t4⟩
                else
                  let t5 := t4 ++ [PEvent.verifiedFinal]
                  if env.unlinkOk = false then ⟨false, fs4, t5⟩
                  else
                    let fs5 := fs4.erase src
                    let t6 := t5 ++ [PEvent.deletedSource]
                    let fs6 :=
                      if hasTempDirName td then
                        let cleared :=
                          { fs5 with files :=
                              fs5.files.filter (fun e => !decide (e.1.dir = td)) }
                        if cleared.dirEmpty td then
                          { cleared with dirs :=
                              cleared.dirs.filter (fun d => !decide (d = td)) }
                        else cleared
                      else fs5
                    ⟨true, fs6, t6 ++ [PEvent.cleanedTempDir]⟩

lemma stem_ne_compressed (s : String) : s ≠ s ++ "_compressed" := by
  intro h
  have hlen := congrArg String.length h
  rw [String.length_append] at hlen
  have h11 : ("_compressed" : String).length = 11 := rfl
  omega

lemma src_ne_tempOutput (cfg : PConfig) (src : VPath) :
    src ≠ tempOutput cfg src := by
  intro h
  exact stem_ne_compressed src.stem (congrArg VPath.stem h)

lemma src_ne_finalOutput (src : VPath) : src ≠ finalOutput src := by
  intro h
  exact stem_ne_compressed src.stem (congrArg VPath.stem h)

lemma find_filter_of_ne {l : List (VPath × ℕ)} {p q : VPath} (h : p ≠ q) :
    (l.filter (fun e => !decide (e.1 = q))).find? (fun e => decide (e.1 = p))
      = l.find? (fun e => decide (e.1 = p)) := by
  induction l with
  | nil => rfl
  | cons e rest ih =>
    have hqp : ¬(q = p) := fun hh => h hh.symm
    by_cases heq : e.1 = q
    · have hep : ¬(e.1 = p) := fun hp => h (by rw [← hp, heq])
      simp [List.filter_cons, heq, List.find?, hep, hqp, h, ih]
    · by_cases hep : e.1 = p
      · simp [List.filter_cons, heq, List.find?, hep, hqp, h]
      · simp [List.filter_cons, heq, List.find?, hep, hqp, h, ih]

lemma FS.read_mkdir (fs : FS) (d : String) (p : VPath) :
    (fs.mkdir d).read p = fs.read p := rfl

lemma FS.read_write_ne {p q : VPath} (h : p ≠ q) (fs : FS) (v : ℕ) :
    (fs.write q v).read p = fs.read p := by
  have hq : ¬(((q, v) : VPath × ℕ).1 = p) := fun hh => h hh.symm
  rw [FS.read, FS.write]
  simp only [List.find?, hq, decide_eq_true_eq, decide_False]
  rw [find_filter_of_ne h]
  rfl

lemma FS.read_erase_ne {p q : VPath} (h : p ≠ q) (fs : FS) :
    (fs.erase q).read p = fs.read p := by
  rw [FS.read, FS.erase]
  rw [find_filter_of_ne h]
  rfl

lemma read_cleanupTempFiles_ne {p q : VPath} (h : p ≠ q) (fs : FS) :
    (cleanupTempFiles fs q).read p = fs.read p := by
  rw [cleanupTempFiles]
  split
  · exact FS.read_erase_ne h fs
  · exact FS.read_erase_ne h fs

/-- Claim C1: in the per-file protocol the source is deleted only after the
compressed artifact has been moved into the source directory and the
post-move verification has succeeded (the move and final-verification
events precede the deletion event in every trace containing it, and both
oracle outcomes were successes); whenever the protocol returns failure —
at the space check, hashing, compression, first verification, move, or
second verification — the source file is still present unchanged. -/
theorem claim_C1_source_durability (cfg : PConfig) (env : PEnv) (src : VPath)
    (fs0 : FS) :
    ((processFile cfg env false src fs0).ok = false →
      (processFile cfg env false src fs0).fs.read src = fs0.read src) ∧
    (PEvent.deletedSource ∈ (processFile cfg env false src fs0).trace →
      (processFile cfg env false src fs0).ok = true ∧
      List.Sublist
        [PEvent.movedToFinal, PEvent.verifiedFinal, PEvent.deletedSource]
        (processFile cfg env false src fs0).trace ∧
      env.moveOk = true ∧ env.verifyFinalOk = true) ∧
    ((processFile cfg env false src fs0).fs.read src ≠ fs0.read src →
      PEvent.deletedSource ∈ (processFile cfg env false src fs0).trace) := by
  have hts : src ≠ tempOutput cfg src := src_ne_tempOutput cfg src
  have hfs : src ≠ finalOutput src := src_ne_finalOutput src
  suffices key : ∀ res : PFResult, processFile cfg env false src fs0 = res →
      (res.ok = false → res.fs.read src = fs0.read src) ∧
      (PEvent.deletedSource ∈ res.trace →
        res.ok = true ∧
        List.Sublist
          [PEvent.movedToFinal, PEvent.verifiedFinal, PEvent.deletedSource]
          res.trace ∧
        env.moveOk = true ∧ env.verifyFinalOk = true) ∧
      (res.fs.read src ≠ fs0.read src → PEvent.deletedSource ∈ res.trace) by
    exact key _ rfl
  intro res hres
  rw [processFile] at hres
  simp only at hres
  by_cases h1 : (fs0.read src).isNone = true
  · rw [if_pos h1] at hres
    subst hres
    dsimp only
    exact ⟨fun _ => rfl, fun hdel => absurd hdel (by simp),
      fun hneq => absurd rfl hneq⟩
  rw [if_neg h1] at hres
  by_cases h2 : env.spaceOk = false
  · rw [if_pos h2] at hres
    subst hres
    dsimp only
    exact ⟨fun _ => rfl, fun hdel => absurd hdel (by simp),
      fun hneq => absurd rfl hneq⟩
  rw [if_neg h2, if_neg (by simp : ¬(false = true))] at hres
  by_cases h4 : (cfg.createBackupHash && !env.hashOk) = true
  · rw [if_pos h4] at hres
    subst hres
    dsimp only
    exact ⟨fun _ => rfl, fun hdel => absurd hdel (by simp),
      fun hneq => absurd rfl hneq⟩
  rw [if_neg h4] at hres
  by_cases h5 : env.compressOk = false
  · rw [if_pos h5] at hres
    subst hres
    dsimp only
    have hpres : (cleanupTempFiles
        ((fs0.mkdir (tempDirOf cfg src)).mkdir (tempDirOf cfg src))
        (tempOutput cfg src)).read src = fs0.read src := by
      rw [read_cleanupTempFiles_ne hts, FS.read_mkdir, FS.read_mkdir]
    exact ⟨fun _ => hpres, fun hdel => absurd hdel (by simp),
      fun hneq => absurd hpres hneq⟩
  rw [if_neg h5] at hres
  by_cases h6 : (cfg.verifyIntegrity && !env.verifyTempOk) = true
  · rw [if_pos h6] at hres
    subst hres
    dsimp only
    have hpres : (cleanupTempFiles
        (((fs0.mkdir (tempDirOf cfg src)).mkdir (tempDirOf cfg src)).write
          (tempOutput cfg src) env.compressOutput)
        (tempOutput cfg src)).read src = fs0.read src := by
      rw [read_cleanupTempFiles_ne hts, FS.read_write_ne hts,
        FS.read_mkdir, FS.read_mkdir]
    exact ⟨fun _ => hpres, fun hdel => absurd hdel (by simp),
      fun hneq => absurd hpres hneq⟩
  rw [if_neg h6] at hres
  by_cases h7 : env.compressOutput = 0
  · rw [if_pos h7] at hres
    subst hres
    dsimp only
    have hpres : (cleanupTempFiles
        (((fs0.mkdir (tempDirOf cfg src)).mkdir (tempDirOf cfg src)).write
          (tempOutput cfg src) env.compressOutput)
        (tempOutput cfg src)).read src = fs0.read src := by
      rw [read_cleanupTempFiles_ne hts, FS.read_write_ne hts,
        FS.read_mkdir, FS.read_mkdir]
    exact ⟨fun _ => hpres, fun hdel => absurd hdel (by simp),
      fun hneq => absurd hpres hneq⟩
  rw [if_neg h7] at hres
  by_cases h8 : env.moveOk = false
  · rw [if_pos h8] at hres
    subst hres
    dsimp only
    have hpres : (cleanupTempFiles
        (((fs0.mkdir (tempDirOf cfg src)).mkdir (tempDirOf cfg src)).write
          (tempOutput cfg src) env.compressOutput)
        (tempOutput cfg src)).read src = fs0.read src := by
      rw [read_cleanupTempFiles_ne hts, FS.read_write_ne hts,
        FS.read_mkdir, FS.read_mkdir]
    exact ⟨fun _ => hpres, fun hdel => absurd hdel (by simp),
      fun hneq => absurd hpres hneq⟩
  rw [if_neg h8] at hres
  by_cases h9 : env.verifyFinalOk = false
  · rw [if_pos h9] at hres
    subst hres
    dsimp only
    have hpres : (((((fs0.mkdir (tempDirOf cfg src)).mkdir
          (tempDirOf cfg src)).write (tempOutput cfg src)
          env.compressOutput).erase (tempOutput cfg src)).write
          (finalOutput src) env.compressOutput).read src = fs0.read src := by
      rw [FS.read_write_ne hfs, FS.read_erase_ne hts, FS.read_write_ne hts,
        FS.read_mkdir, FS.read_mkdir]
    exact ⟨fun _ => hpres, fun hdel => absurd hdel (by simp),
      fun hneq => absurd hpres hneq⟩
  rw [if_neg h9] at hres
  by_cases h10 : env.unlinkOk = false
  · rw [if_pos h10] at hres
    subst hres
    dsimp only
    have hpres : (((((fs0.mkdir (tempDirOf cfg src)).mkdir
          (tempDirOf cfg src)).write (tempOutput cfg src)
          env.compressOutput).erase (tempOutput cfg src)).write
          (finalOutput src) env.compressOutput).read src = fs0.read src := by
      rw [FS.read_write_ne hfs, FS.read_erase_ne hts, FS.read_write_ne hts,
        FS.read_mkdir, FS.read_mkdir]
    exact ⟨fun _ => hpres, fun hdel => absurd hdel (by simp),
      fun hneq => absurd hpres hneq⟩
  rw [if_neg h10] at hres
  subst hres
  dsimp only
  have htr : List.Sublist
      [PEvent.movedToFinal, PEvent.verifiedFinal, PEvent.deletedSource]
      ((((((([PEvent.checkedSpace, PEvent.madeTempDir] ++ [PEvent.hashedSource])
        ++ [PEvent.wroteTempOutput]) ++ [PEvent.verifiedTemp])
        ++ [PEvent.movedToFinal]) ++ [PEvent.verifiedFinal])
        ++ [PEvent.deletedSource]) ++ [PEvent.cleanedTempDir]) := by decide
  have hmem : PEvent.deletedSource ∈
      ((((((([PEvent.checkedSpace, PEvent.madeTempDir] ++ [PEvent.hashedSource])
        ++ [PEvent.wroteTempOutput]) ++ [PEvent.verifiedTemp])
        ++ [PEvent.movedToFinal]) ++ [PEvent.verifiedFinal])
        ++ [PEvent.deletedSource]) ++ [PEvent.cleanedTempDir]) := by decide
  refine ⟨fun hok => absurd hok (by simp),
    fun _ => ⟨rfl, htr, ?_, ?_⟩,
    fun _ => hmem⟩
  · simpa using h8
  · simpa using h9

set_option maxRecDepth 10000 in
/-- Claim C1 witness: the durability theorem applied to a concrete run
whose move step fails, showing the source entry unchanged. -/
theorem claim_C1_witness :
    (processFile ⟨true, "/tmp/video_compression", true, true, true⟩
        ⟨true, true, true, 512, true, false, true, true⟩ false
        ⟨"/videos", "movie", ".mkv"⟩
        ⟨[(⟨"/videos", "movie", ".mkv"⟩, 1000)], ["/videos"]⟩).fs.read
      ⟨"/videos", "movie", ".mkv"⟩
      = (⟨[(⟨"/videos", "movie", ".mkv"⟩, 1000)], ["/videos"]⟩ : FS).read
        ⟨"/videos", "movie", ".mkv"⟩ :=
  (claim_C1_source_durability
    ⟨true, "/tmp/video_compression", true, true, true⟩
    ⟨true, true, true, 512, true, false, true, true⟩
    ⟨"/videos", "movie", ".mkv"⟩
    ⟨[(⟨"/videos", "movie", ".mkv"⟩, 1000)], ["/videos"]⟩).1 (by decide)

set_option maxRecDepth 10000 in
/-- Claim C2 (code bug): `process_file` never reads
`delete_original_after_compression` — its result is invariant under the
flag — and on a fully successful run with the flag set to false the source
is deleted anyway (lines 2041-2048 unlink unconditionally; the parallel
path at lines 2826-2828 does the same), contradicting the claim that the
source is preserved when the flag is false. -/
theorem claim_C2_delete_flag_ignored :
    (∀ (cfg : PConfig) (env : PEnv) (d : Bool) (src : VPath) (fs0 : FS)
      (b : Bool),
      processFile { cfg with deleteOriginalAfterCompression := b } env d src fs0
        = processFile cfg env d src fs0) ∧
    ((processFile ⟨true, "/tmp/video_compression", true, true, false⟩
        ⟨true, true, true, 512, true, true, true, true⟩ false
        ⟨"/videos", "movie", ".mkv"⟩
        ⟨[(⟨"/videos", "movie", ".mkv"⟩, 1000)], ["/videos"]⟩).ok = true ∧
     (processFile ⟨true, "/tmp/video_compression", true, true, false⟩
        ⟨true, true, true, 512, true, true, true, true⟩ false
        ⟨"/videos", "movie", ".mkv"⟩
        ⟨[(⟨"/videos", "movie", ".mkv"⟩, 1000)], ["/videos"]⟩).fs.read
        ⟨"/videos", "movie", ".mkv"⟩ = none) := by
  refine ⟨fun cfg env d src fs0 b => ?_, by decide, by decide⟩
  obtain ⟨u, t, hb, v, dd⟩ := cfg
  rfl

lemma mem_mkdir_dirs {fs : FS} {d td : String}
    (h : d ∈ (fs.mkdir td).dirs) : d ∈ fs.dirs ∨ d = td := by
  rw [FS.mkdir] at h
  dsimp only at h
  by_cases hm : td ∈ fs.dirs
  · rw [if_pos hm] at h
    exact Or.inl h
  · rw [if_neg hm] at h
    rcases List.mem_cons.mp h with h1 | h1
    · exact Or.inr h1
    · exact Or.inl h1

set_option maxRecDepth 10000 in
/-- Claim C4 counterexample: a successful dry run over a file in `/videos`
creates the directory `/videos/.video_compression_temp` (check_disk_space
line 352 and process_file line 1945 both run before the dry-run return at
line 1951), refuting the claim that no temp directory is newly created. -/
theorem claim_C4_counterexample :
    "/videos/.video_compression_temp" ∈
      (processFile ⟨true, "/tmp/video_compression", true, true, true⟩
        ⟨true, true, true, 512, true, true, true, true⟩ true
        ⟨"/videos", "movie", ".mkv"⟩
        ⟨[(⟨"/videos", "movie", ".mkv"⟩, 1000)], ["/videos"]⟩).fs.dirs ∧
    "/videos/.video_compression_temp" ∉
      (⟨[(⟨"/videos", "movie", ".mkv"⟩, 1000)], ["/videos"]⟩ : FS).dirs ∧
    (processFile ⟨true, "/tmp/video_compression", true, true, true⟩
        ⟨true, true, true, 512, true, true, true, true⟩ true
        ⟨"/videos", "movie", ".mkv"⟩
        ⟨[(⟨"/videos", "movie", ".mkv"⟩, 1000)], ["/videos"]⟩).ok = true := by
  refine ⟨by decide, by decide, by decide⟩

/-- Claim C4 (amended): in dry-run mode no file is modified or deleted —
the file map is returned unchanged on every dry-run path — and the only
directory a dry run may create is the per-file temp directory (next to the
input under `use_same_filesystem`, otherwise the configured `temp_dir`),
which is created before the dry-run return. -/
theorem claim_C4_dry_run_no_destruction (cfg : PConfig) (env : PEnv)
    (src : VPath) (fs0 : FS) :
    (processFile cfg env true src fs0).fs.files = fs0.files ∧
    ∀ d, d ∈ (processFile cfg env true src fs0).fs.dirs →
      d ∈ fs0.dirs ∨ d = tempDirOf cfg src := by
  suffices key : ∀ res : PFResult, processFile cfg env true src fs0 = res →
      res.fs.files = fs0.files ∧
      ∀ d, d ∈ res.fs.dirs → d ∈ fs0.dirs ∨ d = tempDirOf cfg src by
    exact key _ rfl
  intro res hres
  rw [processFile] at hres
  simp only at hres
  by_cases h1 : (fs0.read src).isNone = true
  · rw [if_pos h1] at hres
    subst hres
    dsimp only
    exact ⟨rfl, fun d hd => Or.inl hd⟩
  rw [if_neg h1] at hres
  by_cases h2 : env.spaceOk = false
  · rw [if_pos h2] at hres
    subst hres
    dsimp only
    exact ⟨rfl, fun d hd => mem_mkdir_dirs hd⟩
  rw [if_neg h2, if_pos trivial] at hres
  subst hres
  dsimp only
  refine ⟨rfl, fun d hd => ?_⟩
  rcases mem_mkdir_dirs hd with h3 | h3
  · exact mem_mkdir_dirs h3
  · exact Or.inr h3

set_option maxRecDepth 10000 in
/-- Claim C4 witness: the amended dry-run theorem applied to the concrete
dry run of the counterexample, at the pre-existing directory `/videos`. -/
theorem claim_C4_witness :
    "/videos" ∈
      (⟨[(⟨"/videos", "movie", ".mkv"⟩, 1000)], ["/videos"]⟩ : FS).dirs ∨
    "/videos" = tempDirOf ⟨true, "/tmp/video_compression", true, true, true⟩
      ⟨"/videos", "movie", ".mkv"⟩ :=
  (claim_C4_dry_run_no_destruction
    ⟨true, "/tmp/video_compression", true, true, true⟩
    ⟨true, true, true, 512, true, true, true, true⟩
    ⟨"/videos", "movie", ".mkv"⟩
    ⟨[(⟨"/videos", "movie", ".mkv"⟩, 1000)], ["/videos"]⟩).2
    "/videos" (by decide)

/-! ## CLI entry point (`main`, lines 2843-2904) -/

/-- How the CLI received its file list: `--single`, `--files <path>` (whose
contents may fail to load), positional arguments, or nothing.  `main`
checks the three sources in this order (lines 2859-2874). -/
inductive FileSelection where
  | single (f : String)
  | fileList (contents : Option (List String))
  | positional (files : List String)
  | noneGiven
deriving DecidableEq, Repr

/-- Outcome of one `main` run: the process exit code, and the success and
failure counts `process_file_list` records in `processed_files` and
`failed_files`. -/
structure MainOutcome where
  exitCode : ℕ
  processed : ℕ
  failed : ℕ
deriving DecidableEq, Repr

/-- The batch tail of `main` (lines 2876-2900): exit 1 when the collected
list is empty; exit 0 when the safety prompt is declined on a non-dry run;
otherwise `process_file_list` (lines 2138-2229) runs every job, counting
successes and failures, and `main` returns normally — the Python process
exits 0 no matter what `jobResults` (the per-file `process_file` verdicts)
contained. -/
def mainBatch (files : List String) (dryRun confirmYes : Bool)
    (jobResults : List Bool) : MainOutcome :=
  if files.isEmpty then ⟨1, 0, 0⟩
  else if !dryRun && !confirmYes then ⟨0, 0, 0⟩
  else
    ⟨0, (jobResults.filter (fun b => b)).length,
        (jobResults.filter (fun b => !b)).length⟩

/-- `main` (lines 2843-2904) with `load_config` (lines 241-243): a config
parse error exits 1; a missing `--files` file exits 1 (line 2868); no file
source given exits 1 (line 2874); then `mainBatch`.  Blank lines of a
`--files` file are stripped (line 2865). -/
def mainRun (configParseOk : Bool) (sel : FileSelection)
    (dryRun confirmYes : Bool) (jobResults : List Bool) : MainOutcome :=
  if configParseOk = false then ⟨1, 0, 0⟩
  else
    match sel with
    | FileSelection.single f => mainBatch [f] dryRun confirmYes jobResults
    | FileSelection.fileList none => ⟨1, 0, 0⟩
    | FileSelection.fileList (some lines) =>
        mainBatch (lines.filter (fun l => !l.isEmpty)) dryRun confirmYes
          jobResults
    | FileSelection.positional fs => mainBatch fs dryRun confirmYes jobResults
    | FileSelection.noneGiven => ⟨1, 0, 0⟩

/-- Claim C3 counterexample: a confirmed non-dry batch over one file whose
Job fails still exits 0 — zero files were processed successfully, one Job
failed, yet the exit code is neither non-zero nor 2, refuting both the
claimed iff and the claimed exit code 2 for partial failures. -/
theorem claim_C3_counterexample :
    (mainRun true (FileSelection.positional ["a.mp4"]) false true
      [false]).exitCode = 0 ∧
    (mainRun true (FileSelection.positional ["a.mp4"]) false true
      [false]).processed = 0 ∧
    (mainRun true (FileSelection.positional ["a.mp4"]) false true
      [false]).failed = 1 := by
  refine ⟨by decide, by decide, by decide⟩

/-- Claim C3 (amended): the CLI exits 1 exactly on user-visible preflight
failures (config parse error, missing file-list file, no files given or
collected) and 0 in every other case — including batches in which some or
all Jobs failed; the exit code never takes the value 2 and is entirely
independent of the per-file results. -/
theorem claim_C3_exit_codes (configParseOk : Bool) (sel : FileSelection)
    (dryRun confirmYes : Bool) (results otherResults : List Bool) :
    ((mainRun configParseOk sel dryRun confirmYes results).exitCode = 0 ∨
     (mainRun configParseOk sel dryRun confirmYes results).exitCode = 1) ∧
    (mainRun configParseOk sel dryRun confirmYes results).exitCode ≠ 2 ∧
    (mainRun configParseOk sel dryRun confirmYes results).exitCode =
      (mainRun configParseOk sel dryRun confirmYes otherResults).exitCode := by
  cases configParseOk <;>
    rcases sel with f | (_ | lines) | fs | _ <;>
    simp [mainRun, mainBatch] <;>
    split_ifs <;> simp

/-! ## Segment compression tail (`compress_single_segment`,
lines 1746-1854) -/

/-- Observable events of one `compress_single_segment` run, in program
order: progress-callback invocations and the inspection of the encoder
process return code. -/
inductive SegEvent where
  | callbackCall (fraction : ℚ)
  | checkedReturncode (rc : ℤ)
deriving DecidableEq, Repr

/-- `compress_single_segment` (lines 1746-1854), abstracted to its event
trace: when the probe of the segment fails the call returns failure with
no events (lines 1749-1751); otherwise the monitoring loop forwards each
parsed progress fraction to the callback while the encoder runs
(lines 1811-1825); once `process.poll()` reports termination the callback
is invoked with `1.0` (lines 1827-1829) before the return code is read and
compared (lines 1835-1843); the call succeeds iff the return code is
zero. -/
def compressSingleSegment (probeOk : Bool) (hasCallback : Bool)
    (loopFractions : List ℚ) (returncode : ℤ) : List SegEvent × Bool :=
  if probeOk = false then ([], false)
  else
    let loopEvents :=
      if hasCallback then loopFractions.map SegEvent.callbackCall else []
    let finalEvent := if hasCallback then [SegEvent.callbackCall 1] else []
    (loopEvents ++ finalEvent ++ [SegEvent.checkedReturncode returncode],
      decide (returncode = 0))

/-- Claim C10: whenever `compress_single_segment` runs with a callback and
the spawned encoder terminates, the callback is invoked with fraction 1.0
before the return code is inspected — the pair of events
`callbackCall 1, checkedReturncode rc` occurs in order in every trace —
and this holds for every return code, including nonzero ones for which the
call then returns failure (the result is success iff the code is zero). -/
theorem claim_C10_final_callback (loopFractions : List ℚ) (rc : ℤ) :
    List.Sublist [SegEvent.callbackCall 1, SegEvent.checkedReturncode rc]
      (compressSingleSegment true true loopFractions rc).1 ∧
    (compressSingleSegment true true loopFractions rc).2 = decide (rc = 0) := by
  constructor
  · show List.Sublist _
      ((loopFractions.map SegEvent.callbackCall ++ [SegEvent.callbackCall 1])
        ++ [SegEvent.checkedReturncode rc])
    rw [List.append_assoc]
    exact List.sublist_append_right _ _
  · rfl

end VideoCompressor
